import Mathlib

set_option maxRecDepth 10000

/- Shallow embedding of the QuantAI-OS quantitative signal pipeline:
   regime canonical relabeling (src/quantai/risk/regimes.py),
   Kelly position sizing (src/quantai/risk/sizing.py),
   ensemble combination (src/quantai/models/ensemble.py),
   feature engineering (src/quantai/data/features.py), and
   the chronological train/test split shared by both classifiers
   (src/quantai/models/trees.py, src/quantai/models/linear.py). -/

/- ----------------------------------------------------------------
   Regime detector: canonical relabeling (regimes.py, fit_predict).

   The code computes, for each raw HMM state i in range(K), a realized
   annualized volatility `self._volatilities[i]`; we abstract this table
   as a function `vols : ℕ → ℚ` (its values are arbitrary reals produced
   by the fit; every theorem below holds for all of them).

   `sorted_states = sorted(vols.keys(), key=lambda x: vols[x], reverse=True)`
   is Python's stable sort of the key list [0, 1, ..., K-1] in descending
   key order; ties keep their original (raw-index) order.  We embed it as
   the standard stable insertion sort for the descending order. -/

def insertDesc (key : ℕ → ℚ) (a : ℕ) : List ℕ → List ℕ
  | [] => [a]
  | b :: l => if key b ≤ key a then a :: b :: l else b :: insertDesc key a l

def sortDesc (key : ℕ → ℚ) : List ℕ → List ℕ
  | [] => []
  | a :: l => insertDesc key a (sortDesc key l)

/-- Embedding of `sorted_states = sorted(self._volatilities.keys(), key=..., reverse=True)`
where the dict keys are inserted in loop order `0, 1, ..., K-1`. -/
def sortedStates (vols : ℕ → ℚ) (K : ℕ) : List ℕ :=
  sortDesc vols (List.range K)

/-- Embedding of `state_mapping = {old: new for new, old in enumerate(sorted_states)}`:
the new (canonical) index of a raw state is its position in `sorted_states`. -/
def stateMapping (vols : ℕ → ℚ) (K : ℕ) (old : ℕ) : ℕ :=
  (sortedStates vols K).indexOf old

/-- Embedding of the loop `for old, new in state_mapping.items(): reordered_probs[new] = self._regime_probs[old]`:
entry `new` of the reordered vector is `probs[sorted_states[new]]`, so as a list over
`new = 0, ..., K-1` the reordered vector is `sorted_states` mapped through `probs`. -/
def reorderedProbs (vols : ℕ → ℚ) (K : ℕ) (probs : ℕ → ℚ) : List ℚ :=
  (sortedStates vols K).map probs

/-- Embedding of `self._current_regime = state_mapping[raw_current]`. -/
def currentRegime (vols : ℕ → ℚ) (K : ℕ) (rawCurrent : ℕ) : ℕ :=
  stateMapping vols K rawCurrent

/-- Embedding of the class attribute `REGIME_NAMES = {0: "HIGH VOL", 1: "MED VOL", 2: "LOW VOL"}`
as a partial lookup: `none` models a missing key (a `KeyError` on subscript access). -/
def REGIME_NAMES : ℕ → Option String := fun i =>
  if i = 0 then some "HIGH VOL"
  else if i = 1 then some "MED VOL"
  else if i = 2 then some "LOW VOL"
  else none

/-- Embedding of the dict comprehension body of `regime_probabilities`:
`{self.REGIME_NAMES[i]: float(self._regime_probs[i]) for i in range(self.n_regimes)}`,
evaluated left to right, raising `KeyError` at the first index missing from
`REGIME_NAMES`. -/
def buildRegimeDict (probs : ℕ → ℚ) : List ℕ → Except String (List (String × ℚ))
  | [] => .ok []
  | i :: rest =>
    match REGIME_NAMES i with
    | none => .error "KeyError"
    | some name =>
      match buildRegimeDict probs rest with
      | .error e => .error e
      | .ok l => .ok ((name, probs i) :: l)

/-- Embedding of the `regime_probabilities` property after a successful fit:
`probs` is the canonically reordered probability vector, indexed over `range K`. -/
def regimeProbabilities (K : ℕ) (probs : ℕ → ℚ) : Except String (List (String × ℚ)) :=
  buildRegimeDict probs (List.range K)

/- Lemmas about the stable descending sort. -/

theorem insertDesc_perm (key : ℕ → ℚ) (a : ℕ) (l : List ℕ) :
    (insertDesc key a l).Perm (a :: l) := by
  induction l with
  | nil => simp [insertDesc]
  | cons b l ih =>
    by_cases h : key b ≤ key a
    · simp [insertDesc, h]
    · simp only [insertDesc, if_neg h]
      exact ((ih.cons b).trans (List.Perm.swap a b l))

theorem sortDesc_perm (key : ℕ → ℚ) (l : List ℕ) :
    (sortDesc key l).Perm l := by
  induction l with
  | nil => simp [sortDesc]
  | cons a l ih =>
    exact (insertDesc_perm key a (sortDesc key l)).trans (ih.cons a)

theorem mem_insertDesc {key : ℕ → ℚ} {a x : ℕ} {l : List ℕ} :
    x ∈ insertDesc key a l ↔ x = a ∨ x ∈ l := by
  constructor
  · intro hx
    have := (insertDesc_perm key a l).mem_iff.mp hx
    simpa using this
  · intro hx
    exact (insertDesc_perm key a l).mem_iff.mpr (by simpa using hx)

theorem pairwise_insertDesc {key : ℕ → ℚ} {a : ℕ} {l : List ℕ}
    (hl : l.Pairwise (fun x y => key y ≤ key x)) :
    (insertDesc key a l).Pairwise (fun x y => key y ≤ key x) := by
  induction l with
  | nil => simp [insertDesc]
  | cons b l ih =>
    rcases List.pairwise_cons.mp hl with ⟨hb, hl'⟩
    by_cases h : key b ≤ key a
    · simp only [insertDesc, if_pos h]
      refine List.pairwise_cons.mpr ⟨?_, hl⟩
      intro x hx
      rcases List.mem_cons.mp hx with rfl | hx
      · exact h
      · exact le_trans (hb x hx) h
    · simp only [insertDesc, if_neg h]
      refine List.pairwise_cons.mpr ⟨?_, ih hl'⟩
      intro x hx
      rcases mem_insertDesc.mp hx with rfl | hx
      · exact le_of_lt (lt_of_not_le h)
      · exact hb x hx

theorem pairwise_sortDesc (key : ℕ → ℚ) (l : List ℕ) :
    (sortDesc key l).Pairwise (fun x y => key y ≤ key x) := by
  induction l with
  | nil => simp [sortDesc]
  | cons a l ih => exact pairwise_insertDesc ih

theorem filter_insertDesc (key : ℕ → ℚ) (q : ℚ) (a : ℕ) (l : List ℕ) :
    (insertDesc key a l).filter (fun s => decide (key s = q))
      = if key a = q then a :: l.filter (fun s => decide (key s = q))
        else l.filter (fun s => decide (key s = q)) := by
  induction l with
  | nil =>
    by_cases hq : key a = q <;> simp [insertDesc, hq]
  | cons b l ih =>
    simp only [insertDesc]
    by_cases h : key b ≤ key a
    · rw [if_pos h]
      by_cases hq : key a = q <;> simp [List.filter_cons, hq]
    · rw [if_neg h]
      have hab : key a < key b := lt_of_not_le h
      by_cases hq : key a = q
      · have hbq : ¬ key b = q := fun hbq =>
          absurd (hq.trans hbq.symm) (ne_of_lt hab)
        simp [List.filter_cons, ih, hq, hbq]
      · by_cases hbq : key b = q <;> simp [List.filter_cons, ih, hq, hbq]

theorem filter_sortDesc (key : ℕ → ℚ) (q : ℚ) (l : List ℕ) :
    (sortDesc key l).filter (fun s => decide (key s = q))
      = l.filter (fun s => decide (key s = q)) := by
  induction l with
  | nil => rfl
  | cons a l ih =>
    by_cases hq : key a = q <;>
      simp [sortDesc, filter_insertDesc, hq, List.filter, ih]

/-- C1: the canonical relabeling sorts raw state indices by realized volatility
descending: `sorted_states` is a permutation of the raw indices `0, ..., K-1`;
reading canonical indices left to right, volatilities are non-increasing (so the
volatility of canonical state 0 is greatest); and for every volatility value the
tied raw states appear in `sorted_states` in exactly their original raw-index
order (Python's sort is stable, also under `reverse=True`). -/
theorem canonical_relabeling_sorted (vols : ℕ → ℚ) (K : ℕ) :
    (sortedStates vols K).Perm (List.range K)
    ∧ (sortedStates vols K).Pairwise (fun a b => vols b ≤ vols a)
    ∧ ∀ q : ℚ, (sortedStates vols K).filter (fun s => decide (vols s = q))
        = (List.range K).filter (fun s => decide (vols s = q)) := by
  refine ⟨sortDesc_perm vols (List.range K), pairwise_sortDesc vols (List.range K), ?_⟩
  intro q
  exact filter_sortDesc vols q (List.range K)

/-- C2: the exposed probability vector is the canonical permutation of the raw
posterior vector; it has length K, and whenever the raw posterior sums to 1, so
does the reordered vector. -/
theorem reordered_probs_sum (vols probs : ℕ → ℚ) (K : ℕ)
    (h : ((List.range K).map probs).sum = 1) :
    (reorderedProbs vols K probs).length = K
    ∧ (reorderedProbs vols K probs).sum = 1 := by
  have hperm : (reorderedProbs vols K probs).Perm ((List.range K).map probs) :=
    (sortDesc_perm vols (List.range K)).map probs
  constructor
  · have := hperm.length_eq
    simpa using this
  · rw [hperm.sum_eq, h]

/-- Witness for C2 at a concrete fit: K = 3, volatilities (2, 5, 5),
raw posterior (1/2, 1/4, 1/4). -/
theorem reordered_probs_sum_witness :
    (reorderedProbs (fun i => if i = 0 then 2 else 5) 3
        (fun i => if i = 0 then 1/2 else 1/4)).length = 3
    ∧ (reorderedProbs (fun i => if i = 0 then 2 else 5) 3
        (fun i => if i = 0 then 1/2 else 1/4)).sum = 1 :=
  reordered_probs_sum (fun i => if i = 0 then 2 else 5)
    (fun i => if i = 0 then 1/2 else 1/4) 3 (by with_unfolding_all decide)

/- ----------------------------------------------------------------
   Ensemble combiner (ensemble.py, EnsemblePredictor.fit_predict).

   The two member models return a binary prediction, a confidence, and a
   held-out accuracy; the combiner is a pure function of those six numbers,
   with fixed weights 0.6 (trees) / 0.4 (linear). -/

structure ModelOutput where
  pred : ℕ
  conf : ℚ
  accuracy : ℚ

structure EnsembleOutcome where
  prediction : ℕ
  confidence : ℚ
  winProbability : ℚ
deriving DecidableEq

/-- Embedding of `weighted_pred = weights['xgb'] * xgb_pred + weights['elastic'] * elastic_pred`. -/
def weightedScore (pA pB : ℕ) : ℚ :=
  (6/10) * pA + (4/10) * pB

/-- Embedding of the combination step of `EnsemblePredictor.fit_predict`:
`self._ensemble_prediction = 1 if weighted_pred >= 0.5 else 0`;
`self._ensemble_confidence = 0.6 * xgb_conf + 0.4 * elastic_conf`;
`avg_accuracy = 0.6 * xgb.accuracy + 0.4 * elastic.accuracy`;
`self._win_probability = conf * acc` if the prediction is 1 else `(1 - conf) * acc`,
then `max(0.3, min(0.7, self._win_probability + 0.1))`. -/
def ensembleCombine (xgb elastic : ModelOutput) : EnsembleOutcome :=
  let weightedPred := weightedScore xgb.pred elastic.pred
  let prediction : ℕ := if (1/2 : ℚ) ≤ weightedPred then 1 else 0
  let confidence := (6/10) * xgb.conf + (4/10) * elastic.conf
  let avgAccuracy := (6/10) * xgb.accuracy + (4/10) * elastic.accuracy
  let winProb0 := if prediction = 1 then confidence * avgAccuracy
                  else (1 - confidence) * avgAccuracy
  { prediction := prediction
    confidence := confidence
    winProbability := max (3/10) (min (7/10) (winProb0 + 1/10)) }

/-- C3: the exposed win probability is `confidence x avgAccuracy` when the final
prediction is 1 and `(1 - confidence) x avgAccuracy` when it is 0, plus a flat
0.10, clamped to [0.30, 0.70]; hence it always lies in [0.30, 0.70]. -/
theorem ensemble_win_probability (xgb elastic : ModelOutput) :
    (ensembleCombine xgb elastic).winProbability
      = max (3/10) (min (7/10)
          ((if (ensembleCombine xgb elastic).prediction = 1
              then (ensembleCombine xgb elastic).confidence
                * ((6/10) * xgb.accuracy + (4/10) * elastic.accuracy)
              else (1 - (ensembleCombine xgb elastic).confidence)
                * ((6/10) * xgb.accuracy + (4/10) * elastic.accuracy)) + 1/10))
    ∧ (3/10 : ℚ) ≤ (ensembleCombine xgb elastic).winProbability
    ∧ (ensembleCombine xgb elastic).winProbability ≤ 7/10 := by
  refine ⟨?_, ?_, ?_⟩
  · by_cases hc : (1/2 : ℚ) ≤ weightedScore xgb.pred elastic.pred <;>
      simp [ensembleCombine, hc]
  · exact le_max_left _ _
  · exact max_le (by norm_num) (min_le_left _ _)

/-- C6: the weighted score is `0.6 * predictionA + 0.4 * predictionB`, and the
final ensemble prediction is 1 exactly when that score is at least 0.5; in
particular predictionA = 1 with predictionB = 0 gives score 0.6 and prediction 1. -/
theorem ensemble_threshold (xgb elastic : ModelOutput)
    (hA : xgb.pred = 0 ∨ xgb.pred = 1) (hB : elastic.pred = 0 ∨ elastic.pred = 1) :
    weightedScore xgb.pred elastic.pred
      = (6/10) * (xgb.pred : ℚ) + (4/10) * (elastic.pred : ℚ)
    ∧ ((ensembleCombine xgb elastic).prediction = 1
        ↔ (1/2 : ℚ) ≤ weightedScore xgb.pred elastic.pred)
    ∧ (xgb.pred = 1 → elastic.pred = 0 →
        weightedScore xgb.pred elastic.pred = 6/10
        ∧ (ensembleCombine xgb elastic).prediction = 1) := by
  refine ⟨rfl, ?_, ?_⟩
  · by_cases hc : (1/2 : ℚ) ≤ weightedScore xgb.pred elastic.pred <;>
      simp [ensembleCombine, hc]
  · intro h1 h0
    constructor
    · rw [weightedScore, h1, h0]
      norm_num
    · have hs : weightedScore xgb.pred elastic.pred = 6/10 := by
        rw [weightedScore, h1, h0]; norm_num
      simp [ensembleCombine, hs]
      norm_num

/-- Witness for C6 at the spec's scenario: predictions (1, 0) with arbitrary
confidences and accuracies give score 0.6 and final prediction 1. -/
theorem ensemble_threshold_witness :
    weightedScore (ModelOutput.mk 1 (55/100) (52/100)).pred
        (ModelOutput.mk 0 (51/100) (50/100)).pred = 6/10
    ∧ (ensembleCombine (ModelOutput.mk 1 (55/100) (52/100))
        (ModelOutput.mk 0 (51/100) (50/100))).prediction = 1 :=
  (ensemble_threshold (ModelOutput.mk 1 (55/100) (52/100))
    (ModelOutput.mk 0 (51/100) (50/100)) (Or.inr rfl) (Or.inl rfl)).2.2 rfl rfl

/- ----------------------------------------------------------------
   Position sizer (sizing.py, KellySizer.calculate), in exact rational
   arithmetic.  Each helper mirrors one line of the method. -/

/-- Embedding of `win_prob = np.clip(win_probability, 0.01, 0.99)`. -/
def clipWinProb (winProbability : ℚ) : ℚ :=
  max (1/100) (min (99/100) winProbability)

/-- Embedding of `if avg_loss == 0: avg_loss = 0.01` followed by `b = avg_win / avg_loss`. -/
def payoffB (avgWin avgLoss : ℚ) : ℚ :=
  avgWin / (if avgLoss = 0 then 1/100 else avgLoss)

/-- Embedding of `kelly = (win_prob * b - loss_prob) / b` with `loss_prob = 1 - win_prob`. -/
def kellyRaw (winProbability avgWin avgLoss : ℚ) : ℚ :=
  (clipWinProb winProbability * payoffB avgWin avgLoss
    - (1 - clipWinProb winProbability)) / payoffB avgWin avgLoss

/-- Embedding of `self._kelly_fraction = max(0, kelly)`. -/
def kellyFullFraction (winProbability avgWin avgLoss : ℚ) : ℚ :=
  max 0 (kellyRaw winProbability avgWin avgLoss)

structure SizingOutcome where
  fullKelly : ℚ
  recommendedSize : ℚ
deriving DecidableEq

/-- Embedding of `KellySizer.calculate`: half-Kelly damping, regime scaling,
and the `min(regime_adjusted, self.max_position)` cap. -/
def kellyCalculate (winProbability avgWin avgLoss regimeFactor maxPosition : ℚ) :
    SizingOutcome :=
  { fullKelly := kellyFullFraction winProbability avgWin avgLoss
    recommendedSize :=
      min (kellyFullFraction winProbability avgWin avgLoss * (1/2) * regimeFactor)
        maxPosition }

/-- C4: for valid inputs the recommended size is between 0 and maxPosition and
never exceeds `fullKelly x regimeFactor x 0.5`. -/
theorem kelly_bounds (winProbability avgWin avgLoss regimeFactor maxPosition : ℚ)
    (haw : 0 < avgWin) (hal : 0 ≤ avgLoss)
    (hrf : 0 ≤ regimeFactor) (hmp : 0 ≤ maxPosition) :
    0 ≤ (kellyCalculate winProbability avgWin avgLoss regimeFactor maxPosition).recommendedSize
    ∧ (kellyCalculate winProbability avgWin avgLoss regimeFactor maxPosition).recommendedSize
        ≤ maxPosition
    ∧ (kellyCalculate winProbability avgWin avgLoss regimeFactor maxPosition).recommendedSize
        ≤ (kellyCalculate winProbability avgWin avgLoss regimeFactor maxPosition).fullKelly
          * regimeFactor * (1/2) := by
  refine ⟨?_, min_le_right _ _, ?_⟩
  · refine le_min ?_ hmp
    have h0 : (0 : ℚ) ≤ kellyFullFraction winProbability avgWin avgLoss :=
      le_max_left 0 _
    have : (0 : ℚ) ≤ kellyFullFraction winProbability avgWin avgLoss * (1/2) :=
      mul_nonneg h0 (by norm_num)
    exact mul_nonneg this hrf
  · rw [show (kellyCalculate winProbability avgWin avgLoss regimeFactor
        maxPosition).fullKelly = kellyFullFraction winProbability avgWin avgLoss from rfl]
    refine le_trans (min_le_left _ _) (le_of_eq ?_)
    ring

/-- Witness for C4 with winProbability 0.6, avgWin 0.02, avgLoss 0.01,
regimeFactor 0.75, maxPosition 0.25. -/
theorem kelly_bounds_witness :
    0 ≤ (kellyCalculate (6/10) (2/100) (1/100) (75/100) (25/100)).recommendedSize
    ∧ (kellyCalculate (6/10) (2/100) (1/100) (75/100) (25/100)).recommendedSize ≤ 25/100
    ∧ (kellyCalculate (6/10) (2/100) (1/100) (75/100) (25/100)).recommendedSize
        ≤ (kellyCalculate (6/10) (2/100) (1/100) (75/100) (25/100)).fullKelly
          * (75/100) * (1/2) :=
  kelly_bounds (6/10) (2/100) (1/100) (75/100) (25/100)
    (by norm_num) (by norm_num) (by norm_num) (by norm_num)

/-- C5: the spec scenario: winProbability 0.6, avgWin 0.02, avgLoss 0 (replaced
by 0.01), regimeFactor 1, default maxPosition 0.25 gives full Kelly 0.4 and
recommended size min(0.2, 0.25) = 0.2. -/
theorem kelly_scenario_zero_loss :
    (kellyCalculate (6/10) (2/100) 0 1 (25/100)).fullKelly = 2/5
    ∧ (kellyCalculate (6/10) (2/100) 0 1 (25/100)).recommendedSize = min (2/10) (25/100)
    ∧ (kellyCalculate (6/10) (2/100) 0 1 (25/100)).recommendedSize = 1/5 := by
  with_unfolding_all decide

/- ----------------------------------------------------------------
   The `regime_probabilities` property and the fixed three-entry name table. -/

theorem buildRegimeDict_error (probs : ℕ → ℚ) (l : List ℕ)
    (h : ∃ i ∈ l, REGIME_NAMES i = none) :
    buildRegimeDict probs l = .error "KeyError" := by
  induction l with
  | nil => simp at h
  | cons i rest ih =>
    rcases h with ⟨j, hj, hnone⟩
    rcases List.mem_cons.mp hj with rfl | hj'
    · simp only [buildRegimeDict]
      rw [hnone]
    · cases hni : REGIME_NAMES i with
      | none => simp only [buildRegimeDict]; rw [hni]
      | some name =>
        simp only [buildRegimeDict]
        rw [hni, ih ⟨j, hj', hnone⟩]

/-- C10: with more than three regimes, every access to `regime_probabilities`
after a successful fit raises `KeyError` (the name table only covers canonical
indices 0, 1, 2), while the canonical relabeling of `fit_predict` and
`current_regime` itself stays well defined: it maps any raw state below K to a
canonical index below K. -/
theorem regime_probabilities_keyerror (K : ℕ) (probs vols : ℕ → ℚ) (raw : ℕ)
    (hK : 3 < K) (hraw : raw < K) :
    regimeProbabilities K probs = .error "KeyError"
    ∧ currentRegime vols K raw < K := by
  constructor
  · exact buildRegimeDict_error probs (List.range K)
      ⟨3, List.mem_range.mpr hK, rfl⟩
  · have hmem : raw ∈ sortedStates vols K :=
      (sortDesc_perm vols (List.range K)).mem_iff.mpr (List.mem_range.mpr hraw)
    have hlen : (sortedStates vols K).length = K := by
      simpa using (sortDesc_perm vols (List.range K)).length_eq
    have := List.indexOf_lt_length.mpr hmem
    rw [hlen] at this
    exact this

/-- Witness for C10 at K = 4: the probabilities dictionary raises, the canonical
current-regime index stays below 4. -/
theorem regime_probabilities_keyerror_witness :
    regimeProbabilities 4 (fun _ => 1/4) = .error "KeyError"
    ∧ currentRegime (fun i => (i : ℚ)) 4 2 < 4 :=
  regime_probabilities_keyerror 4 (fun _ => 1/4) (fun i => (i : ℚ)) 2
    (by decide) (by decide)

/- ----------------------------------------------------------------
   Python / numpy float values, exactly: a rational payload plus the two
   infinities and NaN.  `calculate` only performs exact operations on its
   inputs (no rounding can change a sign or zero-ness there), so rationals
   with IEEE special values model the float data flow faithfully.  Signed
   zeros are not modelled; every zero arising below is a positive zero. -/

inductive PyFloat where
  | val (q : ℚ)
  | pinf
  | ninf
  | nan
deriving DecidableEq, Repr

def PyFloat.isNaN : PyFloat → Bool
  | .nan => true
  | _ => false

def PyFloat.add : PyFloat → PyFloat → PyFloat
  | .nan, _ => .nan
  | _, .nan => .nan
  | .val a, .val b => .val (a + b)
  | .val _, .pinf => .pinf
  | .val _, .ninf => .ninf
  | .pinf, .val _ => .pinf
  | .ninf, .val _ => .ninf
  | .pinf, .pinf => .pinf
  | .ninf, .ninf => .ninf
  | .pinf, .ninf => .nan
  | .ninf, .pinf => .nan

def PyFloat.sub : PyFloat → PyFloat → PyFloat
  | .nan, _ => .nan
  | _, .nan => .nan
  | .val a, .val b => .val (a - b)
  | .val _, .pinf => .ninf
  | .val _, .ninf => .pinf
  | .pinf, .val _ => .pinf
  | .ninf, .val _ => .ninf
  | .pinf, .pinf => .nan
  | .ninf, .ninf => .nan
  | .pinf, .ninf => .pinf
  | .ninf, .pinf => .ninf

def PyFloat.mul : PyFloat → PyFloat → PyFloat
  | .nan, _ => .nan
  | _, .nan => .nan
  | .val a, .val b => .val (a * b)
  | .val a, .pinf => if a = 0 then .nan else if 0 < a then .pinf else .ninf
  | .val a, .ninf => if a = 0 then .nan else if 0 < a then .ninf else .pinf
  | .pinf, .val a => if a = 0 then .nan else if 0 < a then .pinf else .ninf
  | .ninf, .val a => if a = 0 then .nan else if 0 < a then .ninf else .pinf
  | .pinf, .pinf => .pinf
  | .pinf, .ninf => .ninf
  | .ninf, .pinf => .ninf
  | .ninf, .ninf => .pinf

/-- IEEE division without signed zeros: a finite nonzero numerator over (positive)
zero gives the numerator-signed infinity, 0/0 gives NaN. -/
def PyFloat.div : PyFloat → PyFloat → PyFloat
  | .nan, _ => .nan
  | _, .nan => .nan
  | .val a, .val b =>
    if b = 0 then (if a = 0 then .nan else if 0 < a then .pinf else .ninf)
    else .val (a / b)
  | .val _, .pinf => .val 0
  | .val _, .ninf => .val 0
  | .pinf, .val b => if 0 ≤ b then .pinf else .ninf
  | .ninf, .val b => if 0 ≤ b then .ninf else .pinf
  | .pinf, .pinf => .nan
  | .pinf, .ninf => .nan
  | .ninf, .pinf => .nan
  | .ninf, .ninf => .nan

/-- IEEE strict comparison; any comparison against NaN is false. -/
def PyFloat.ltb : PyFloat → PyFloat → Bool
  | .nan, _ => false
  | _, .nan => false
  | .val a, .val b => decide (a < b)
  | .val _, .pinf => true
  | .val _, .ninf => false
  | .pinf, _ => false
  | .ninf, .ninf => false
  | .ninf, _ => true

/-- Python's builtin `max(a, b)`: keep `a` and replace it only when `b > a`. -/
def pymax (a b : PyFloat) : PyFloat := if a.ltb b then b else a

/-- Python's builtin `min(a, b)`: keep `a` and replace it only when `b < a`. -/
def pymin (a b : PyFloat) : PyFloat := if b.ltb a then b else a

/-- Pure Python float division: raises `ZeroDivisionError` on a zero divisor
(numpy scalar division does not; see `kellyCalculatePy`). -/
def floatDiv (a b : PyFloat) : Except String PyFloat :=
  match b with
  | .val q => if q = 0 then .error "ZeroDivisionError" else .ok (a.div b)
  | _ => .ok (a.div b)

/-- Embedding of `KellySizer.calculate` at the float level.  `b = avg_win / avg_loss`
is pure Python float division (both operands are Python floats) and can raise;
`kelly = (win_prob * b - loss_prob) / b` has a numpy `float64` numerator, because
`win_prob = np.clip(...)` returns `np.float64`, so that division follows numpy
semantics: a zero divisor yields an infinity (plus a RuntimeWarning), never an
exception. -/
def kellyCalculatePy (winProbability avgWin avgLoss regimeFactor maxPosition : ℚ) :
    Except String PyFloat :=
  match floatDiv (.val avgWin) (.val (if avgLoss = 0 then 1/100 else avgLoss)) with
  | .error e => .error e
  | .ok b =>
    let kelly := (((PyFloat.val (clipWinProb winProbability)).mul b).sub
        (.val (1 - clipWinProb winProbability))).div b
    let kellyFraction := pymax (.val 0) kelly
    let halfKelly := kellyFraction.mul (.val (1/2))
    let regimeAdjusted := halfKelly.mul (.val regimeFactor)
    .ok (pymin regimeAdjusted (.val maxPosition))

/-- C9 counterexample: with `avgWin = 0` (and nonzero `avgLoss`), `calculate`
does not raise: the payoff ratio is 0.0, the Kelly expression divides a negative
numpy float64 by 0.0 giving -inf, `max(0, -inf)` floors it to 0, and the method
returns 0.0. -/
theorem kelly_zero_avg_win_returns :
    kellyCalculatePy (6/10) 0 (5/100) 1 (25/100) = .ok (.val 0) := by
  with_unfolding_all rfl

/-- C9 amended: for every call with `avgWin = 0` (any `avgLoss`, any win
probability, any nonnegative cap) `calculate` does not raise: the zero-divisor
division happens under numpy scalar semantics, produces -inf, is floored to 0 by
`max(0, .)`, and the recommended size comes out as `min(0, maxPosition) = 0`. -/
theorem kelly_zero_avg_win_no_raise (wp al rf mp : ℚ) (hmp : 0 ≤ mp) :
    kellyCalculatePy wp 0 al rf mp = .ok (.val 0) := by
  have hal' : ¬ ((if al = 0 then (1/100 : ℚ) else al) = 0) := by
    by_cases h : al = 0 <;> simp [h]
  have hwp : clipWinProb wp ≤ 99/100 := max_le (by norm_num) (min_le_left _ _)
  have hnum : clipWinProb wp - 1 < 0 := by linarith
  have h1 : ¬ (clipWinProb wp - 1 = 0) := ne_of_lt hnum
  have h2 : ¬ ((0:ℚ) < clipWinProb wp - 1) := not_lt.mpr (le_of_lt hnum)
  have h3 : ¬ (mp < 0) := not_lt.mpr hmp
  have hdiv : floatDiv (.val 0) (.val (if al = 0 then (1/100 : ℚ) else al))
      = .ok (.val 0) := by
    by_cases h : al = 0
    · norm_num [floatDiv, PyFloat.div, h]
    · norm_num [floatDiv, PyFloat.div, h]
  rw [kellyCalculatePy, hdiv]
  simp [PyFloat.mul, PyFloat.sub, PyFloat.div, pymax, pymin, PyFloat.ltb,
    h1, h2, h3]

/-- Witness for the amended C9 statement at `avgLoss = 0.05`,
`regimeFactor = 0.75`, `maxPosition = 0.25`. -/
theorem kelly_zero_avg_win_no_raise_witness :
    kellyCalculatePy (55/100) 0 (5/100) (75/100) (25/100) = .ok (.val 0) :=
  kelly_zero_avg_win_no_raise (55/100) (5/100) (75/100) (25/100) (by norm_num)

/- ----------------------------------------------------------------
   Directional classifiers (trees.py / linear.py): data routing of
   `fit_predict`.  Both variants call
   `train_test_split(X.iloc[:-1], y.iloc[:-1], test_size=test_size, shuffle=False)`
   and keep `X.iloc[-1:]` as the prediction row.  With `shuffle=False` sklearn
   takes the last `ceil(n * test_size)` rows as the test set and the first
   `n - ceil(n * test_size)` rows as the training set. -/

def splitTrainTest {α : Type} (rows : List α) (testSize : ℚ) : List α × List α :=
  (rows.take (rows.length - (Int.ceil (testSize * rows.length)).toNat),
   rows.drop (rows.length - (Int.ceil (testSize * rows.length)).toNat))

structure FitRouting (α : Type) where
  trainX : List α
  testX : List α
  predictX : List α

/-- Embedding of the shared data routing of both `fit_predict` methods:
drop the most recent row from the train/test pool (`X.iloc[:-1]`), split the
pool chronologically, and keep the most recent row (`X.iloc[-1:]`) only as the
prediction input. -/
def classifierRouting {α : Type} (X : List α) (testSize : ℚ) : FitRouting α :=
  { trainX := (splitTrainTest X.dropLast testSize).1
    testX := (splitTrainTest X.dropLast testSize).2
    predictX := X.drop (X.length - 1) }

/-- Embedding of `StandardScaler.fit` inside the linear variant's Pipeline:
per-column means over exactly the rows passed to `fit` — the training split. -/
def scalerMean (rows : List (List ℚ)) (j : ℕ) : ℚ :=
  ((rows.map (fun r => r.getD j 0)).sum) / rows.length

/-- The standardization statistics the linear variant actually uses: those of
its training split. -/
def elasticScalerMean (X : List (List ℚ)) (testSize : ℚ) : ℕ → ℚ :=
  scalerMean (classifierRouting X testSize).trainX

theorem testCount_le {m : ℕ} {f : ℚ} (hf1 : f ≤ 1) :
    (Int.ceil (f * (m : ℚ))).toNat ≤ m := by
  have hfm : f * (m : ℚ) ≤ (m : ℚ) :=
    mul_le_of_le_one_left (Nat.cast_nonneg m) hf1
  have ht : Int.ceil (f * (m : ℚ)) ≤ (m : ℤ) := by
    rw [Int.ceil_le]
    exact_mod_cast hfm
  omega

/-- C8: for every feature matrix, both classifier variants exclude the single
most recent row from the train and test sets (it is the prediction target
alone), split the remaining rows by position with the last
`ceil(testFraction x (n-1))` rows (in time order) as the test set, and the
linear variant's standardization statistics are a function of the training
split only: they are unchanged by any modification of the test rows or the
prediction row. -/
theorem classifier_split_protocol (X : List (List ℚ)) (f : ℚ)
    (hn : 1 ≤ X.length) (hf1 : f ≤ 1) :
    (classifierRouting X f).trainX ++ (classifierRouting X f).testX = X.dropLast
    ∧ (classifierRouting X f).predictX = X.drop (X.length - 1)
    ∧ (classifierRouting X f).predictX.length = 1
    ∧ ((classifierRouting X f).trainX ++ (classifierRouting X f).testX)
        ++ (classifierRouting X f).predictX = X
    ∧ (classifierRouting X f).testX.length = (Int.ceil (f * ((X.length - 1 : ℕ) : ℚ))).toNat
    ∧ ∀ X' : List (List ℚ), X'.length = X.length →
        X'.take (X.length - 1 - (Int.ceil (f * ((X.length - 1 : ℕ) : ℚ))).toNat)
          = X.take (X.length - 1 - (Int.ceil (f * ((X.length - 1 : ℕ) : ℚ))).toNat) →
        elasticScalerMean X' f = elasticScalerMean X f := by
  have hsplit : ∀ Y : List (List ℚ),
      (classifierRouting Y f).trainX
        = Y.take (Y.length - 1 - (Int.ceil (f * ((Y.length - 1 : ℕ) : ℚ))).toNat) := by
    intro Y
    have hk : Y.length - 1 - (Int.ceil (f * ((Y.length - 1 : ℕ) : ℚ))).toNat
        ≤ Y.length - 1 := Nat.sub_le _ _
    calc (classifierRouting Y f).trainX
        = Y.dropLast.take
            (Y.dropLast.length - (Int.ceil (f * (Y.dropLast.length : ℚ))).toNat) := rfl
      _ = Y.dropLast.take
            (Y.length - 1 - (Int.ceil (f * ((Y.length - 1 : ℕ) : ℚ))).toNat) := by
          rw [List.length_dropLast]
      _ = Y.take (Y.length - 1 - (Int.ceil (f * ((Y.length - 1 : ℕ) : ℚ))).toNat) := by
          rw [List.dropLast_eq_take, List.take_take]
          congr 1
          omega
  refine ⟨List.take_append_drop _ _, rfl, ?_, ?_, ?_, ?_⟩
  · rw [show (classifierRouting X f).predictX = X.drop (X.length - 1) from rfl,
      List.length_drop]
    omega
  · have h1 : (classifierRouting X f).trainX ++ (classifierRouting X f).testX
        = X.dropLast := List.take_append_drop _ _
    rw [h1, show (classifierRouting X f).predictX = X.drop (X.length - 1) from rfl,
      List.dropLast_eq_take]
    exact List.take_append_drop _ _
  · rw [show (classifierRouting X f).testX
        = X.dropLast.drop
            (X.dropLast.length - (Int.ceil (f * (X.dropLast.length : ℚ))).toNat) from rfl,
      List.length_drop, List.length_dropLast]
    have := testCount_le (m := X.length - 1) hf1
    omega
  · intro X' hlen htake
    rw [elasticScalerMean, elasticScalerMean, hsplit X', hsplit X, hlen, htake]

def splitWitnessX : List (List ℚ) := [[1], [2], [3], [4], [5], [6]]

/-- Witness for C8: six rows, testFraction 0.2: the pool is the first five rows
and the test set is its last ceil(0.2 x 5) = 1 row. -/
theorem classifier_split_protocol_witness :
    (classifierRouting splitWitnessX (1/5)).testX.length
      = (Int.ceil ((1/5 : ℚ) * ((splitWitnessX.length - 1 : ℕ) : ℚ))).toNat :=
  (classifier_split_protocol splitWitnessX (1/5)
    (by decide) (by norm_num)).2.2.2.2.1

/- ----------------------------------------------------------------
   Feature engineer (features.py, FeatureEngineer.create_features).

   The input price frame is modelled as a single fully observed Close column
   (closes : List ℚ); the `Volume` branch is absent, so `Volume_Ratio = 1.0`
   as in the code's else-branch.  Cells are PyFloat values: pandas missing
   values are `nan`, and pandas/numpy elementwise arithmetic follows the
   IEEE tables above (`x / 0` gives an infinity for nonzero x, `0 / 0` gives
   NaN, comparisons against NaN are False).  `dropna()` removes exactly the
   rows holding a NaN in some column; infinities are kept.

   Square roots appear only inside `rolling(w).std()` (and the constant
   `np.sqrt(252)`); their arguments are nonnegative rationals, so the result
   is always a non-NaN number whatever its value is.  The embedding takes the
   square-root function on rationals as a parameter `sqrtQ`; no statement
   below depends on its values. -/

/-- Entry i of a pandas column; NaN when out of range. -/
def cellAt (s : List PyFloat) (i : ℕ) : PyFloat :=
  (s.get? i).getD .nan

def pfSum (l : List PyFloat) : PyFloat :=
  l.foldl PyFloat.add (.val 0)

/-- pandas `s.shift(k)` for k > 0: k leading NaNs, the tail falls off. -/
def shiftFwd (k : ℕ) (s : List PyFloat) : List PyFloat :=
  (List.replicate k PyFloat.nan ++ s).take s.length

/-- pandas `s.shift(-1)`: drop the first entry, append a trailing NaN. -/
def shiftBack (s : List PyFloat) : List PyFloat :=
  s.drop 1 ++ [PyFloat.nan]

def seriesSub (s t : List PyFloat) : List PyFloat :=
  List.zipWith PyFloat.sub s t

def seriesDiv (s t : List PyFloat) : List PyFloat :=
  List.zipWith PyFloat.div s t

/-- pandas `s.pct_change(periods=k)`: `s / s.shift(k) - 1`. -/
def pctChange (k : ℕ) (s : List PyFloat) : List PyFloat :=
  List.zipWith (fun a b => (a.div b).sub (.val 1)) s (shiftFwd k s)

/-- pandas `s.diff()`: `s - s.shift(1)`. -/
def diffSeries (s : List PyFloat) : List PyFloat :=
  List.zipWith PyFloat.sub s (shiftFwd 1 s)

/-- The trailing width-w window ending at position i. -/
def window (w i : ℕ) (s : List PyFloat) : List PyFloat :=
  (s.take (i + 1)).drop (i + 1 - w)

/-- pandas `s.rolling(window=w).mean()` (min_periods defaults to w): NaN before
position w-1; on a full window the sum, which absorbs any NaN, divided by w. -/
def rollingMean (w : ℕ) (s : List PyFloat) : List PyFloat :=
  (List.range s.length).map (fun i =>
    if i + 1 < w then .nan else (pfSum (window w i s)).div (.val (w : ℚ)))

/-- Square root lifted to PyFloat via the parameter `sqrtQ`; negative arguments
would give NaN, but every argument below is a nonnegative variance. -/
def pfSqrt (sqrtQ : ℚ → ℚ) : PyFloat → PyFloat
  | .val q => if q < 0 then .nan else .val (sqrtQ q)
  | .pinf => .pinf
  | .ninf => .nan
  | .nan => .nan

/-- pandas `s.rolling(window=w).std()` with the default ddof = 1: the square
root of the unbiased variance of the full window. -/
def rollingStd (sqrtQ : ℚ → ℚ) (w : ℕ) (s : List PyFloat) : List PyFloat :=
  (List.range s.length).map (fun i =>
    if i + 1 < w then .nan
    else
      pfSqrt sqrtQ
        (((window w i s).map (fun x =>
            (x.sub ((pfSum (window w i s)).div (.val (w : ℚ)))).mul
              (x.sub ((pfSum (window w i s)).div (.val (w : ℚ)))))).foldl
            PyFloat.add (.val 0) |>.div (.val ((w : ℚ) - 1))))

/-- pandas `s.ewm(span=span, adjust=False).mean()` on a NaN-free series:
`y_0 = x_0`, `y_i = (1 - a) * y_(i-1) + a * x_i` with `a = 2 / (span + 1)`. -/
def ewmAux (a : ℚ) : PyFloat → List PyFloat → List PyFloat
  | _, [] => []
  | prev, x :: rest =>
    ((prev.mul (.val (1 - a))).add (x.mul (.val a)))
      :: ewmAux a ((prev.mul (.val (1 - a))).add (x.mul (.val a))) rest

def ewmMean (span : ℕ) (s : List PyFloat) : List PyFloat :=
  match s with
  | [] => []
  | x :: rest => x :: ewmAux (2 / ((span : ℚ) + 1)) x rest

/-- pandas `delta.where(delta > 0, 0)`: keep positive entries, everything else
(including NaN, whose comparison is False) becomes 0. -/
def wherePos (s : List PyFloat) : List PyFloat :=
  s.map (fun d => if (PyFloat.val 0).ltb d then d else .val 0)

/-- pandas `-delta.where(delta < 0, 0)`: negated negative entries, everything
else becomes 0. -/
def whereNegNeg (s : List PyFloat) : List PyFloat :=
  s.map (fun d => if d.ltb (.val 0) then (PyFloat.val 0).sub d else .val 0)

/- The columns of the feature frame, in the order they are assigned. -/

def closeCol (closes : List ℚ) : List PyFloat := closes.map PyFloat.val

def returnsCol (closes : List ℚ) : List PyFloat := pctChange 1 (closeCol closes)

def smaCol (w : ℕ) (closes : List ℚ) : List PyFloat := rollingMean w (closeCol closes)

def emaCol (span : ℕ) (closes : List ℚ) : List PyFloat := ewmMean span (closeCol closes)

def macdCol (closes : List ℚ) : List PyFloat :=
  seriesSub (emaCol 12 closes) (emaCol 26 closes)

def macdSignalCol (closes : List ℚ) : List PyFloat := ewmMean 9 (macdCol closes)

/-- RSI: 14-period rolling means of gains and losses, `rs = gain / loss`,
`RSI = 100 - 100 / (1 + rs)`. -/
def rsiCol (closes : List ℚ) : List PyFloat :=
  (seriesDiv (rollingMean 14 (wherePos (diffSeries (closeCol closes))))
      (rollingMean 14 (whereNegNeg (diffSeries (closeCol closes))))).map
    (fun rs => (PyFloat.val 100).sub ((PyFloat.val 100).div ((PyFloat.val 1).add rs)))

def volatilityCol (sqrtQ : ℚ → ℚ) (closes : List ℚ) : List PyFloat :=
  (rollingStd sqrtQ 20 (returnsCol closes)).map (fun x => x.mul (.val (sqrtQ 252)))

def bbMiddleCol (closes : List ℚ) : List PyFloat := rollingMean 20 (closeCol closes)

def bbStdCol (sqrtQ : ℚ → ℚ) (closes : List ℚ) : List PyFloat :=
  rollingStd sqrtQ 20 (closeCol closes)

def bbUpperCol (sqrtQ : ℚ → ℚ) (closes : List ℚ) : List PyFloat :=
  List.zipWith PyFloat.add (bbMiddleCol closes)
    ((bbStdCol sqrtQ closes).map (fun s => s.mul (.val 2)))

def bbLowerCol (sqrtQ : ℚ → ℚ) (closes : List ℚ) : List PyFloat :=
  List.zipWith PyFloat.sub (bbMiddleCol closes)
    ((bbStdCol sqrtQ closes).map (fun s => s.mul (.val 2)))

def bbWidthCol (sqrtQ : ℚ → ℚ) (closes : List ℚ) : List PyFloat :=
  seriesDiv (seriesSub (bbUpperCol sqrtQ closes) (bbLowerCol sqrtQ closes))
    (bbMiddleCol closes)

def momentumCol (k : ℕ) (closes : List ℚ) : List PyFloat :=
  pctChange k (closeCol closes)

/-- The `Volume` column is absent, so `df['Volume_Ratio'] = 1.0`. -/
def volumeRatCol (closes : List ℚ) : List PyFloat :=
  List.replicate closes.length (PyFloat.val 1)

/-- Embedding of `df['Target'] = (df['Returns'].shift(-1) > 0).astype(int)` at
row i: the comparison of a NaN is False, and `astype(int)` makes the column an
integer column — it can never be NaN, so it never causes a row to be dropped. -/
def targetAt (closes : List ℚ) (i : ℕ) : ℕ :=
  if (PyFloat.val 0).ltb (cellAt (shiftBack (returnsCol closes)) i) then 1 else 0

/-- Every float column of the frame at row i (the integer `Target` column can
never be NaN and is omitted); `dropna()` keeps row i exactly when none of these
cells is NaN.  The intermediate columns (`EMA_12`, `EMA_26`, `BB_Middle`,
`BB_Std`, `BB_Upper`, `BB_Lower`) stay in the frame when `dropna` runs, so they
are listed too. -/
def rowCells (sqrtQ : ℚ → ℚ) (closes : List ℚ) (i : ℕ) : List PyFloat :=
  [ cellAt (smaCol 50 closes) i,
    cellAt (returnsCol closes) i,
    cellAt (closeCol closes) i,
    cellAt (smaCol 5 closes) i,
    cellAt (smaCol 20 closes) i,
    cellAt (emaCol 12 closes) i,
    cellAt (emaCol 26 closes) i,
    cellAt (macdCol closes) i,
    cellAt (macdSignalCol closes) i,
    cellAt (rsiCol closes) i,
    cellAt (volatilityCol sqrtQ closes) i,
    cellAt (bbMiddleCol closes) i,
    cellAt (bbStdCol sqrtQ closes) i,
    cellAt (bbUpperCol sqrtQ closes) i,
    cellAt (bbLowerCol sqrtQ closes) i,
    cellAt (bbWidthCol sqrtQ closes) i,
    cellAt (momentumCol 10 closes) i,
    cellAt (momentumCol 20 closes) i,
    cellAt (volumeRatCol closes) i ]

/-- Row i survives `df.dropna()` iff no cell of row i is NaN. -/
def keepRow (sqrtQ : ℚ → ℚ) (closes : List ℚ) (i : ℕ) : Bool :=
  (rowCells sqrtQ closes i).all (fun c => ! c.isNaN)

/-- The twelve `feature_columns` selected for the returned matrix, at row i. -/
def featureRow (sqrtQ : ℚ → ℚ) (closes : List ℚ) (i : ℕ) : List PyFloat :=
  [ cellAt (returnsCol closes) i,
    cellAt (smaCol 5 closes) i,
    cellAt (smaCol 20 closes) i,
    cellAt (smaCol 50 closes) i,
    cellAt (macdCol closes) i,
    cellAt (macdSignalCol closes) i,
    cellAt (rsiCol closes) i,
    cellAt (volatilityCol sqrtQ closes) i,
    cellAt (bbWidthCol sqrtQ closes) i,
    cellAt (momentumCol 10 closes) i,
    cellAt (momentumCol 20 closes) i,
    cellAt (volumeRatCol closes) i ]

/-- Embedding of `create_features`: build all columns, attach the Target column,
drop the rows holding a NaN, and return the surviving rows as
(original row index, the twelve features, the label). -/
def createFeatures (sqrtQ : ℚ → ℚ) (closes : List ℚ) :
    List (ℕ × List PyFloat × ℕ) :=
  (List.range closes.length).filterMap (fun i =>
    if keepRow sqrtQ closes i
      then some (i, featureRow sqrtQ closes i, targetAt closes i)
      else none)

theorem map_fst_filterMap {β : Type} (p : ℕ → Bool) (g : ℕ → β) (l : List ℕ) :
    ((l.filterMap (fun i => if p i then some (i, g i) else none)).map Prod.fst)
      = l.filter p := by
  induction l with
  | nil => rfl
  | cons a l ih =>
    cases hpa : p a <;>
      simp [List.filterMap_cons, List.filter_cons, hpa, ih]

theorem length_shiftFwd (k : ℕ) (s : List PyFloat) :
    (shiftFwd k s).length = s.length := by
  simp [shiftFwd]

theorem length_pctChange (k : ℕ) (s : List PyFloat) :
    (pctChange k s).length = s.length := by
  simp [pctChange, length_shiftFwd]

theorem length_returnsCol (closes : List ℚ) :
    (returnsCol closes).length = closes.length := by
  simp [returnsCol, length_pctChange, closeCol]

theorem targetAt_last (closes : List ℚ) (hn : 0 < closes.length) :
    targetAt closes (closes.length - 1) = 0 := by
  have hlen : ((returnsCol closes).drop 1).length = closes.length - 1 := by
    simp [length_returnsCol]
  have hcell : cellAt (shiftBack (returnsCol closes)) (closes.length - 1)
      = PyFloat.nan := by
    rw [cellAt, shiftBack, List.get?_append_right (le_of_eq hlen)]
    rw [hlen, Nat.sub_self]
    rfl
  rw [targetAt, hcell]
  rfl

theorem targetAt_of_next (closes : List ℚ) (i : ℕ) (hi : i + 1 < closes.length) :
    targetAt closes i
      = if (PyFloat.val 0).ltb (cellAt (returnsCol closes) (i + 1)) then 1 else 0 := by
  have hlen : (returnsCol closes).length = closes.length := length_returnsCol closes
  have hcell : cellAt (shiftBack (returnsCol closes)) i
      = cellAt (returnsCol closes) (i + 1) := by
    have hip : i < ((returnsCol closes).drop 1).length := by
      rw [List.length_drop, hlen]
      omega
    rw [cellAt, cellAt, shiftBack, List.get?_append hip, List.get?_drop,
      Nat.add_comm]
  rw [targetAt, hcell]

/-- C7 amended: `dropna` keeps exactly the rows with no undefined cell (the
warm-up rows are dropped), but the final row is not dropped on account of its
label: the Target column is an integer column in which the final row, having no
next observation, gets the value `(NaN > 0) = False`, i.e. the label 0; labels
of all non-final rows are genuine next-period-return signs, and whenever the
final row's indicators are all defined it stays in the returned matrix carrying
the synthetic label 0. -/
theorem create_features_final_row (sqrtQ : ℚ → ℚ) (closes : List ℚ)
    (hn : 0 < closes.length) :
    (createFeatures sqrtQ closes).map Prod.fst
      = (List.range closes.length).filter (keepRow sqrtQ closes)
    ∧ (∀ i, i + 1 < closes.length →
        targetAt closes i
          = if (PyFloat.val 0).ltb (cellAt (returnsCol closes) (i + 1)) then 1 else 0)
    ∧ targetAt closes (closes.length - 1) = 0
    ∧ (keepRow sqrtQ closes (closes.length - 1) = true →
        (closes.length - 1, featureRow sqrtQ closes (closes.length - 1), 0)
          ∈ createFeatures sqrtQ closes) := by
  refine ⟨map_fst_filterMap _ _ _, fun i hi => targetAt_of_next closes i hi,
    targetAt_last closes hn, ?_⟩
  intro hkeep
  rw [createFeatures]
  apply List.mem_filterMap.mpr
  refine ⟨closes.length - 1, List.mem_range.mpr (by omega), ?_⟩
  rw [hkeep]
  simp [targetAt_last closes hn]

/-- A 50-day strictly increasing close series (100, 101, ..., 149): exactly long
enough for the largest warm-up window (SMA_50), all indicators defined at the
final row. -/
def cexCloses : List ℚ := (List.range 50).map (fun i => ((100 + i : ℕ) : ℚ))

/-- C7 counterexample: on `cexCloses` the surviving rows of `create_features`
are exactly row 49 — the final input row (the series has 50 rows).  It is not
dropped, although it lacks a next observation, and it carries the label 0;
the claim that every row without a next observation is dropped is false. -/
theorem create_features_cex :
    cexCloses.length = 50
    ∧ (createFeatures (fun q => q) cexCloses).map Prod.fst = [49]
    ∧ targetAt cexCloses 49 = 0 := by
  with_unfolding_all decide

/-- Witness for the amended C7 statement on a three-row close series. -/
theorem create_features_final_row_witness :
    targetAt [(1 : ℚ), 2, 3] (([(1 : ℚ), 2, 3].length) - 1) = 0 :=
  (create_features_final_row (fun q => q) [(1 : ℚ), 2, 3] (by decide)).2.2.1
